import Mathlib

/-!
Verification of the orchestration core of the meeting-notes recorder
(`src/electron/main.ts`): the chunk-batching summarization scheduler, the
final-summary coordinator, the follow-up request correlation table, the
summarizer worker lifecycle, and the session-audio deletion path guard.

JavaScript strings are modelled by Lean `String` viewed as its list of
characters; the JS operations used by the source (`slice`, `trim`,
`length`, `split`, `startsWith`) are embedded explicitly below.
-/

namespace MeetingNotes

/-! ### JS string primitives -/

/-- JS `s.length` (character count). -/
def jsLen (s : String) : Nat := s.data.length

/-- JS `s.slice(n)` for a non-negative index: characters from `n` on. -/
def jsSlice (s : String) (n : Nat) : String := ⟨s.data.drop n⟩

/-- JS `s.trim()`: strip leading and trailing whitespace. -/
def jsTrim (s : String) : String :=
  ⟨((s.data.dropWhile Char.isWhitespace).reverse.dropWhile Char.isWhitespace).reverse⟩

/-- JS `s.startsWith(pre)`. -/
def jsStartsWith (s pre : String) : Bool := pre.data.isPrefixOf s.data

/-- Split a character list at every whitespace character (components may be
empty), as JS `split` does between consecutive separators. -/
def splitWs : List Char → List (List Char)
  | [] => [[]]
  | c :: cs =>
    if c.isWhitespace then [] :: splitWs cs
    else
      match splitWs cs with
      | [] => [[c]]
      | w :: rest => (c :: w) :: rest

/-- `countWords` from main.ts: trim, split on whitespace, keep non-empty parts. -/
def countWords (text : String) : Nat :=
  let trimmed := jsTrim text
  if trimmed = "" then 0
  else ((splitWs trimmed.data).filter (fun w => w ≠ [])).length

/-- `CHUNK_WORD_THRESHOLD` from main.ts. -/
def CHUNK_WORD_THRESHOLD : Nat := 600

/-! ### Chunk summary map (JS `Map<number, string>`, insertion ordered) -/

/-- JS `Map.set`: replace in place when the key exists, else append. -/
def mapSet (m : List (Nat × String)) (k : Nat) (v : String) : List (Nat × String) :=
  if m.any (fun p => p.1 == k) then m.map (fun p => if p.1 == k then (k, v) else p)
  else m ++ [(k, v)]

/-- Comparator `(a, b) => a[0] - b[0]` of `startFinalSummary`, as an order. -/
def entryLE (a b : Nat × String) : Prop := a.1 ≤ b.1

/-- Strict version of `entryLE`, used to state strict ascending id order. -/
def entryLT (a b : Nat × String) : Prop := a.1 < b.1

instance : DecidableRel entryLE := fun a b => Nat.decLe a.1 b.1

instance : IsTotal (Nat × String) entryLE := ⟨fun a b => Nat.le_total a.1 b.1⟩

instance : IsTrans (Nat × String) entryLE := ⟨fun _ _ _ h₁ h₂ => Nat.le_trans h₁ h₂⟩

instance : IsAntisymm (Nat × String) entryLT := ⟨fun _ _ h₁ h₂ => absurd h₂ (Nat.lt_asymm h₁)⟩

/-- `Array.from(chunkSummaries.entries()).sort((a, b) => a[0] - b[0])`:
a stable sort of the map entries by chunk id. -/
def sortEntries (m : List (Nat × String)) : List (Nat × String) :=
  List.insertionSort entryLE m

/-- `.map(([, summary]) => summary).filter(Boolean)` applied to the sorted
entries in `startFinalSummary`. -/
def orderedChunkSummaries (m : List (Nat × String)) : List String :=
  ((sortEntries m).map Prod.snd).filter (fun t => t ≠ "")

/-- The input text built by `startFinalSummary` (main.ts lines 314-327) from
the chunk summary map, the transcript cursor and the full transcript text. -/
def finalInputText (chunkSummaries : List (Nat × String)) (lastOffset : Nat)
    (fullText : String) : String :=
  let orderedSummaries := orderedChunkSummaries chunkSummaries
  let leftoverStart := min lastOffset (jsLen fullText)
  let leftover := jsTrim (jsSlice fullText leftoverStart)
  let segments : List String :=
    (if orderedSummaries = [] then []
     else ["Previous chunk summaries:\n" ++ String.intercalate "\n\n" orderedSummaries]) ++
    (if leftover = "" then [] else ["Remaining transcript:\n" ++ leftover])
  if segments = [] then fullText else String.intercalate "\n\n" segments

/-! ### Ordering lemmas for the merged summaries -/

theorem sortEntries_sorted_lt (m : List (Nat × String))
    (hnd : (m.map Prod.fst).Nodup) : List.Sorted entryLT (sortEntries m) := by
  have hs : List.Sorted entryLE (sortEntries m) := List.sorted_insertionSort entryLE m
  have hperm : (sortEntries m).Perm m := List.perm_insertionSort entryLE m
  have hnd' : ((sortEntries m).map Prod.fst).Nodup :=
    ((hperm.map Prod.fst).nodup_iff).mpr hnd
  have hne : (sortEntries m).Pairwise (fun a b => a.1 ≠ b.1) := List.pairwise_map.mp hnd'
  exact (hs.and hne).imp (fun hab => Nat.lt_of_le_of_ne hab.1 hab.2)

theorem sortEntries_perm_eq {m₁ m₂ : List (Nat × String)} (h : m₁.Perm m₂)
    (hnd : (m₁.map Prod.fst).Nodup) : sortEntries m₁ = sortEntries m₂ := by
  have hnd₂ : (m₂.map Prod.fst).Nodup := ((h.map Prod.fst).nodup_iff).mp hnd
  refine List.eq_of_perm_of_sorted ?_ (sortEntries_sorted_lt m₁ hnd)
    (sortEntries_sorted_lt m₂ hnd₂)
  exact (List.perm_insertionSort entryLE m₁).trans
    (h.trans (List.perm_insertionSort entryLE m₂).symm)

/-! ### Coordinator state

One record holding the module-level mutable variables of main.ts that the
orchestration core reads and writes.  `summarizerAlive` models
`summarizerProcess !== null`; `sendWorks` models whether writes to the live
summarizer's stdin succeed; `spawnCount` counts `spawn` calls for the
summarizer role; `followUps` holds the ids registered in the
`followUpRequests` correlation map. -/

structure ChunkTask where
  id : Nat
  text : String
  sessionDir : Option String
deriving DecidableEq, Repr

structure CState where
  chunkQueue : List ChunkTask
  chunkProcessing : Bool
  nextChunkId : Nat
  chunkSummaries : List (Nat × String)
  lastTranscriptOffset : Nat
  transcriptBuffer : String
  chunkSummariesEnabled : Bool
  finalSummaryPending : Option String
  finalSummaryRunning : Bool
  chunkSummariesSession : Option String
  pendingFinalSummarySession : Option String
  currentSessionDir : Option String
  summarizerAlive : Bool
  currentSummaryModelPath : Option String
  spawnCount : Nat
  followUps : List String
  sendWorks : Bool
deriving DecidableEq, Repr

/-- Observable outputs of a step: commands successfully written to the
summarizer worker's stdin, and resolutions of follow-up request promises. -/
inductive Emit where
  | chunkSummarize (id : Nat) (text : String) (sessionDir : Option String)
  | finalSummarize (text : String) (sessionDir : String)
  | loadModel (modelPath : String)
  | followupResolved (id : String) (ok : Bool)
deriving DecidableEq, Repr

def Emit.isFinal : Emit → Bool
  | .finalSummarize _ _ => true
  | _ => false

/-- `sendProcessCommand(summarizerProcess, ...)` succeeds: the process is
alive and the stdin write does not throw. -/
def sendOk (s : CState) : Bool := s.summarizerAlive && s.sendWorks

/-- `resetChunkSummariesState` (main.ts lines 238-250). -/
def resetChunkSummariesState (s : CState) : CState :=
  { s with
    chunkQueue := []
    chunkProcessing := false
    nextChunkId := 0
    chunkSummaries := []
    lastTranscriptOffset := 0
    transcriptBuffer := ""
    chunkSummariesEnabled := true
    chunkSummariesSession := none
    finalSummaryPending := none
    finalSummaryRunning := false
    pendingFinalSummarySession := none }

/-- `startFinalSummary` (main.ts lines 311-347).  Returns the new state and
the commands successfully dispatched. -/
def startFinalSummary (s : CState) (fullText : String) : CState × List Emit :=
  if !s.summarizerAlive || s.finalSummaryRunning then (s, [])
  else
    let s1 := { s with finalSummaryRunning := true }
    let inputText := finalInputText s1.chunkSummaries s1.lastTranscriptOffset fullText
    let summarySessionDir :=
      match s1.pendingFinalSummarySession with
      | some d => some d
      | none => s1.currentSessionDir
    match summarySessionDir with
    | none => ({ s1 with finalSummaryRunning := false }, [])
    | some dir =>
      if sendOk s1 then (s1, [.finalSummarize inputText dir])
      else ({ s1 with finalSummaryRunning := false }, [])

/-- `maybeStartPendingFinalSummary` (main.ts lines 292-298). -/
def maybeStartPendingFinalSummary (s : CState) : CState × List Emit :=
  match s.finalSummaryPending with
  | none => (s, [])
  | some text =>
    match s.chunkProcessing, s.chunkQueue with
    | false, [] => startFinalSummary { s with finalSummaryPending := none } text
    | _, _ => (s, [])

/-- `processChunkQueue` (main.ts lines 260-278). -/
def processChunkQueue (s : CState) : CState × List Emit :=
  if s.chunkProcessing || !s.summarizerAlive then (s, [])
  else
    match s.chunkQueue with
    | [] => (s, [])
    | task :: rest =>
      let s1 := { s with chunkQueue := rest, chunkProcessing := true }
      if sendOk s1 then (s1, [.chunkSummarize task.id task.text task.sessionDir])
      else
        maybeStartPendingFinalSummary
          { s1 with chunkProcessing := false, chunkQueue := task :: rest }

/-- `queueChunkSummarization` (main.ts lines 252-258). -/
def queueChunkSummarization (s : CState) (text : String) : CState × List Emit :=
  if !s.chunkSummariesEnabled || !s.summarizerAlive then (s, [])
  else
    let chunkText := jsTrim text
    if chunkText = "" then (s, [])
    else
      processChunkQueue
        { s with
          chunkQueue := s.chunkQueue ++ [⟨s.nextChunkId, chunkText, s.currentSessionDir⟩]
          nextChunkId := s.nextChunkId + 1 }

/-- `processTranscriptPartialText` (main.ts lines 280-290). -/
def processTranscriptPartialText (s : CState) (fullText : String) : CState × List Emit :=
  if !s.chunkSummariesEnabled then (s, [])
  else
    let s1 := { s with transcriptBuffer := fullText }
    let unprocessed := jsSlice s1.transcriptBuffer s1.lastTranscriptOffset
    if jsTrim unprocessed = "" then (s1, [])
    else if CHUNK_WORD_THRESHOLD ≤ countWords unprocessed then
      let r := queueChunkSummarization s1 unprocessed
      ({ r.1 with lastTranscriptOffset := jsLen r.1.transcriptBuffer }, r.2)
    else (s1, [])

/-- `requestFinalSummary` (main.ts lines 300-309). -/
def requestFinalSummary (s : CState) (fullText : String) : CState × List Emit :=
  match s.currentSessionDir with
  | none => (s, [])
  | some dir =>
    maybeStartPendingFinalSummary
      { s with
        finalSummaryPending := some fullText
        chunkSummariesEnabled := false
        pendingFinalSummarySession := some dir }

/-- The `context` object attached to summarizer chunk events. -/
structure ChunkCtx where
  type : String
  id : Option Nat
  sessionDir : Option String
deriving DecidableEq, Repr

/-- The state update of `handleChunkSummarizerEvent` on a `done`/`error`
event after `chunkProcessing = false` (main.ts lines 361-367): on `done`
with a numeric chunk id, store the trimmed non-empty summary text. -/
def applyChunkCompletion (s : CState) (ev : String) (text : Option String)
    (chunkId : Option Nat) : CState :=
  if ev = "done" then
    match chunkId with
    | some cid =>
      if jsTrim (text.getD "") ≠ "" then
        { s with chunkSummaries := mapSet s.chunkSummaries cid (jsTrim (text.getD "")) }
      else s
    | none => s
  else s

/-- The tail of `handleChunkSummarizerEvent` (main.ts lines 368-369):
`processChunkQueue()` followed by `maybeStartPendingFinalSummary()`. -/
def processThenMaybeStart (s : CState) : CState × List Emit :=
  let r1 := processChunkQueue s
  let r2 := maybeStartPendingFinalSummary r1.1
  (r2.1, r1.2 ++ r2.2)

/-- `handleChunkSummarizerEvent` (main.ts lines 349-371); `ev` is the
`event` discriminator, `text` is `obj.text` when present. -/
def handleChunkSummarizerEvent (s : CState) (ev : String) (text : Option String)
    (ctx : ChunkCtx) : CState × List Emit :=
  if ctx.type ≠ "chunk" then (s, [])
  else
    match ctx.sessionDir, s.chunkSummariesSession with
    | some d, some cur =>
      if d ≠ cur then (s, [])
      else if ev = "progress" || ev = "summary_delta" then (s, [])
      else if ev = "done" || ev = "error" then
        processThenMaybeStart
          (applyChunkCompletion { s with chunkProcessing := false } ev text ctx.id)
      else (s, [])
    | _, _ => (s, [])

/-- Handling of `context.type === 'final'` events in the summarizer stdout
handler (main.ts lines 747-754, 783-785, 810-812): stale finals are skipped;
`done`/`error` clear the running flag and the pending final session. -/
def handleFinalSummarizerEvent (s : CState) (ev : String)
    (ctxSessionDir : Option String) : CState :=
  match s.pendingFinalSummarySession with
  | none => s
  | some pending =>
    if ctxSessionDir = some pending then
      if ev = "done" || ev = "error" then
        { s with finalSummaryRunning := false, pendingFinalSummarySession := none }
      else s
    else s

/-- `startSummarizerIfNeeded` (main.ts lines 709-731): reuse a live worker,
reconfigure it when the model path changed, spawn otherwise. -/
def startSummarizerIfNeeded (s : CState) (modelPath : Option String) : CState × List Emit :=
  match modelPath with
  | none => (s, [])
  | some p =>
    if s.summarizerAlive then
      match s.currentSummaryModelPath with
      | some cur =>
        if cur ≠ p then
          if sendOk s then ({ s with currentSummaryModelPath := some p }, [.loadModel p])
          else (s, [])
        else (s, [])
      | none => (s, [])
    else
      ({ s with
          summarizerAlive := true
          currentSummaryModelPath := some p
          spawnCount := s.spawnCount + 1 }, [])

/-- Registration part of the `generate-followup-email` handler
(main.ts lines 1147-1171): on a live summarizer, record the request id with
its timeout, send the command, and undo the registration with an immediate
failure resolution when the send fails. -/
def generateFollowupEmail (s : CState) (id : String) : CState × List Emit :=
  if !s.summarizerAlive then (s, [])
  else
    let s1 := { s with followUps := s.followUps ++ [id] }
    if sendOk s1 then (s1, [])
    else (s, [.followupResolved id false])

/-- The 90-second timeout callback of a registered follow-up request
(main.ts lines 1149-1152): remove the id and resolve with a failure.  The
timer only fires while its entry is still registered. -/
def followupTimeoutFire (s : CState) (id : String) : CState × List Emit :=
  if s.followUps.contains id then
    ({ s with followUps := s.followUps.erase id }, [.followupResolved id false])
  else (s, [])

/-- `followup_done` event handling (main.ts lines 786-795): resolve and
remove a registered id, ignore an unknown one. -/
def handleFollowupDone (s : CState) (id : String) : CState × List Emit :=
  if s.followUps.contains id then
    ({ s with followUps := s.followUps.erase id }, [.followupResolved id true])
  else (s, [])

/-- `followup_error` event handling (main.ts lines 813-822). -/
def handleFollowupError (s : CState) (id : String) : CState × List Emit :=
  if s.followUps.contains id then
    ({ s with followUps := s.followUps.erase id }, [.followupResolved id false])
  else (s, [])

/-- The summarizer `exit` handler (main.ts lines 840-850): drop the process
handle and resolve every registered follow-up request with a failure. -/
def onSummarizerExit (s : CState) : CState × List Emit :=
  ({ s with summarizerAlive := false, followUps := [] },
   s.followUps.map (fun id => .followupResolved id false))

/-! ### Event-level step function -/

inductive SEv where
  | partialText (fullText : String)
  | chunkEv (ev : String) (text : Option String) (ctx : ChunkCtx)
  | finalEv (ev : String) (ctxSessionDir : Option String)
  | requestFinal (fullText : String)
  | beginSession (dir : String)
  | ensureSummarizer (modelPath : Option String)
  | summarizerExit
  | followupRegister (id : String)
  | followupTimeout (id : String)
  | followupDone (id : String)
  | followupError (id : String)
deriving DecidableEq, Repr

/-- One dispatch of the coordinator: an incoming worker event, UI command or
timer, routed exactly as main.ts routes it.  `beginSession` is the
`backend-start` flow (lines 1048-1058): reset the chunk state, then record
the fresh session directory. -/
def step (s : CState) (e : SEv) : CState × List Emit :=
  match e with
  | .partialText t => processTranscriptPartialText s t
  | .chunkEv ev text ctx => handleChunkSummarizerEvent s ev text ctx
  | .finalEv ev d => (handleFinalSummarizerEvent s ev d, [])
  | .requestFinal t => requestFinalSummary s t
  | .beginSession dir =>
    ({ resetChunkSummariesState s with
        currentSessionDir := some dir
        chunkSummariesSession := some dir }, [])
  | .ensureSummarizer p => startSummarizerIfNeeded s p
  | .summarizerExit => onSummarizerExit s
  | .followupRegister id => generateFollowupEmail s id
  | .followupTimeout id => followupTimeoutFire s id
  | .followupDone id => handleFollowupDone s id
  | .followupError id => handleFollowupError s id

/-- Run a sequence of events. -/
def runTrace (s : CState) : List SEv → CState
  | [] => s
  | e :: es => runTrace (step s e).1 es

/-- All outputs emitted along a sequence of events. -/
def emitsTrace (s : CState) : List SEv → List Emit
  | [] => []
  | e :: es => (step s e).2 ++ emitsTrace (step s e).1 es

/-- A state with everything empty, used to build concrete scenarios. -/
def baseState : CState :=
  { chunkQueue := []
    chunkProcessing := false
    nextChunkId := 0
    chunkSummaries := []
    lastTranscriptOffset := 0
    transcriptBuffer := ""
    chunkSummariesEnabled := false
    finalSummaryPending := none
    finalSummaryRunning := false
    chunkSummariesSession := none
    pendingFinalSummarySession := none
    currentSessionDir := none
    summarizerAlive := false
    currentSummaryModelPath := none
    spawnCount := 0
    followUps := []
    sendWorks := true }

/-! ### Claim C1 -/

/-- Claim C1: the final summarization request built by `startFinalSummary`
lists the stored chunk summaries in ascending chunk-id order regardless of
completion arrival order (the merged text is invariant under permutation of
the map entries, and the sorted entries are strictly ascending in id),
joined under a "Previous chunk summaries:" section followed by a
"Remaining transcript:" section when the leftover is non-empty, the two
joined by a blank line; with summaries "A" and "B" and leftover
"trailing note" the text is exactly the expected constant, and with no
chunk summaries and no leftover the full original text is sent verbatim. -/
theorem finalInputText_ordering :
    (∀ m₁ m₂ : List (Nat × String), ∀ off : Nat, ∀ full : String,
        m₁.Perm m₂ → (m₁.map Prod.fst).Nodup →
        finalInputText m₁ off full = finalInputText m₂ off full)
    ∧ (∀ m : List (Nat × String), (m.map Prod.fst).Nodup →
        List.Sorted entryLT (sortEntries m))
    ∧ finalInputText [(0, "A"), (1, "B")] 0 "trailing note"
        = "Previous chunk summaries:\nA\n\nB\n\nRemaining transcript:\ntrailing note"
    ∧ finalInputText [(1, "B"), (0, "A")] 0 "trailing note"
        = "Previous chunk summaries:\nA\n\nB\n\nRemaining transcript:\ntrailing note"
    ∧ (∀ (off : Nat) (full : String),
        jsTrim (jsSlice full (min off (jsLen full))) = "" →
        finalInputText [] off full = full) := by
  refine ⟨?_, sortEntries_sorted_lt, by decide, by decide, ?_⟩
  · intro m₁ m₂ off full hperm hnd
    unfold finalInputText orderedChunkSummaries
    rw [sortEntries_perm_eq hperm hnd]
  · intro off full h
    unfold finalInputText orderedChunkSummaries sortEntries
    simp [List.insertionSort, h]

theorem finalInputText_ordering_witness :
    ([((0 : Nat), "A"), (1, "B")] : List (Nat × String)).Perm [(1, "B"), (0, "A")]
    ∧ ([((0 : Nat), "A"), (1, "B")].map (Prod.fst (β := String))).Nodup
    ∧ finalInputText [(0, "A"), (1, "B")] 3 "xy"
        = finalInputText [(1, "B"), (0, "A")] 3 "xy"
    ∧ jsTrim (jsSlice "hi" (min 5 (jsLen "hi"))) = ""
    ∧ finalInputText [] 5 "hi" = "hi" :=
  ⟨by decide, by decide,
   finalInputText_ordering.1 _ _ 3 "xy" (by decide) (by decide),
   by decide,
   finalInputText_ordering.2.2.2.2 5 "hi" (by decide)⟩

/-! ### Helper lemmas about the scheduler functions -/

theorem startFinalSummary_spec (s : CState) (t : String) (s' : CState) (out : List Emit)
    (h : startFinalSummary s t = (s', out)) :
    s'.chunkQueue = s.chunkQueue ∧ s'.chunkProcessing = s.chunkProcessing
    ∧ s'.transcriptBuffer = s.transcriptBuffer
    ∧ s'.lastTranscriptOffset = s.lastTranscriptOffset
    ∧ s'.finalSummaryPending = s.finalSummaryPending
    ∧ (out = []
       ∨ (s.finalSummaryRunning = false ∧ s'.finalSummaryRunning = true
          ∧ ∃ d, out = [Emit.finalSummarize
              (finalInputText s.chunkSummaries s.lastTranscriptOffset t) d])) := by
  simp only [startFinalSummary] at h
  split at h
  · rw [Prod.mk.injEq] at h
    obtain ⟨rfl, rfl⟩ := h
    exact ⟨rfl, rfl, rfl, rfl, rfl, Or.inl rfl⟩
  · rename_i hguard
    have hrun : s.finalSummaryRunning = false := by
      cases hr : s.finalSummaryRunning
      · rfl
      · exact absurd (by simp [hr]) hguard
    split at h
    · rw [Prod.mk.injEq] at h
      obtain ⟨rfl, rfl⟩ := h
      exact ⟨rfl, rfl, rfl, rfl, rfl, Or.inl rfl⟩
    · rename_i dir hdir
      split at h
      · rw [Prod.mk.injEq] at h
        obtain ⟨rfl, rfl⟩ := h
        exact ⟨rfl, rfl, rfl, rfl, rfl, Or.inr ⟨hrun, rfl, dir, rfl⟩⟩
      · rw [Prod.mk.injEq] at h
        obtain ⟨rfl, rfl⟩ := h
        exact ⟨rfl, rfl, rfl, rfl, rfl, Or.inl rfl⟩

theorem maybeStart_spec (s : CState) (s' : CState) (out : List Emit)
    (h : maybeStartPendingFinalSummary s = (s', out)) :
    s'.chunkQueue = s.chunkQueue ∧ s'.chunkProcessing = s.chunkProcessing
    ∧ s'.transcriptBuffer = s.transcriptBuffer
    ∧ s'.lastTranscriptOffset = s.lastTranscriptOffset
    ∧ (out = []
       ∨ (s.chunkQueue = [] ∧ s.chunkProcessing = false
          ∧ s.finalSummaryRunning = false ∧ s'.finalSummaryRunning = true
          ∧ s'.finalSummaryPending = none
          ∧ ∃ t d, out = [Emit.finalSummarize
              (finalInputText s.chunkSummaries s.lastTranscriptOffset t) d])) := by
  simp only [maybeStartPendingFinalSummary] at h
  split at h
  · rw [Prod.mk.injEq] at h
    obtain ⟨rfl, rfl⟩ := h
    exact ⟨rfl, rfl, rfl, rfl, Or.inl rfl⟩
  · rename_i t hpend
    split at h
    · rename_i hproc hq
      have hspec := startFinalSummary_spec _ _ _ _ h
      obtain ⟨h1, h2, h3, h4, h5, hout⟩ := hspec
      refine ⟨by rw [h1, hq], by rw [h2, hproc], h3, h4, ?_⟩
      rcases hout with rfl | ⟨hrf, hrt, d, rfl⟩
      · exact Or.inl rfl
      · exact Or.inr ⟨hq, hproc, hrf, hrt, h5, t, d, rfl⟩
    · rw [Prod.mk.injEq] at h
      obtain ⟨rfl, rfl⟩ := h
      exact ⟨rfl, rfl, rfl, rfl, Or.inl rfl⟩

theorem maybeStart_of_queue_ne (s : CState) (h : s.chunkQueue ≠ []) :
    maybeStartPendingFinalSummary s = (s, []) := by
  simp only [maybeStartPendingFinalSummary]
  split
  · rfl
  · split
    · rename_i hproc hq
      exact absurd hq h
    · rfl

theorem processChunkQueue_spec (s : CState) (s' : CState) (out : List Emit)
    (h : processChunkQueue s = (s', out)) :
    s'.transcriptBuffer = s.transcriptBuffer
    ∧ s'.lastTranscriptOffset = s.lastTranscriptOffset
    ∧ s'.finalSummaryRunning = s.finalSummaryRunning
    ∧ s'.finalSummaryPending = s.finalSummaryPending
    ∧ s'.chunkSummaries = s.chunkSummaries
    ∧ (out = [] ∨ ∃ i tx sd, out = [Emit.chunkSummarize i tx sd]) := by
  simp only [processChunkQueue] at h
  split at h
  · rw [Prod.mk.injEq] at h
    obtain ⟨rfl, rfl⟩ := h
    exact ⟨rfl, rfl, rfl, rfl, rfl, Or.inl rfl⟩
  · split at h
    · rw [Prod.mk.injEq] at h
      obtain ⟨rfl, rfl⟩ := h
      exact ⟨rfl, rfl, rfl, rfl, rfl, Or.inl rfl⟩
    · rename_i task rest hq
      split at h
      · rw [Prod.mk.injEq] at h
        obtain ⟨rfl, rfl⟩ := h
        exact ⟨rfl, rfl, rfl, rfl, rfl, Or.inr ⟨task.id, task.text, task.sessionDir, rfl⟩⟩
      · rw [maybeStart_of_queue_ne _ (by exact List.cons_ne_nil task rest)] at h
        rw [Prod.mk.injEq] at h
        obtain ⟨rfl, rfl⟩ := h
        exact ⟨rfl, rfl, rfl, rfl, rfl, Or.inl rfl⟩

theorem queueChunkSummarization_spec (s : CState) (t : String) (s' : CState) (out : List Emit)
    (h : queueChunkSummarization s t = (s', out)) :
    s'.transcriptBuffer = s.transcriptBuffer
    ∧ s'.lastTranscriptOffset = s.lastTranscriptOffset
    ∧ s'.finalSummaryRunning = s.finalSummaryRunning
    ∧ s'.finalSummaryPending = s.finalSummaryPending
    ∧ s'.chunkSummaries = s.chunkSummaries
    ∧ (out = [] ∨ ∃ i tx sd, out = [Emit.chunkSummarize i tx sd]) := by
  simp only [queueChunkSummarization] at h
  split at h
  · rw [Prod.mk.injEq] at h
    obtain ⟨rfl, rfl⟩ := h
    exact ⟨rfl, rfl, rfl, rfl, rfl, Or.inl rfl⟩
  · split at h
    · rw [Prod.mk.injEq] at h
      obtain ⟨rfl, rfl⟩ := h
      exact ⟨rfl, rfl, rfl, rfl, rfl, Or.inl rfl⟩
    · have hspec := processChunkQueue_spec _ _ _ h
      exact hspec


theorem applyChunkCompletion_frames (s : CState) (ev : String) (text : Option String)
    (cid : Option Nat) :
    (applyChunkCompletion s ev text cid).transcriptBuffer = s.transcriptBuffer
    ∧ (applyChunkCompletion s ev text cid).lastTranscriptOffset = s.lastTranscriptOffset
    ∧ (applyChunkCompletion s ev text cid).finalSummaryRunning = s.finalSummaryRunning
    ∧ (applyChunkCompletion s ev text cid).finalSummaryPending = s.finalSummaryPending
    ∧ (applyChunkCompletion s ev text cid).chunkQueue = s.chunkQueue
    ∧ (applyChunkCompletion s ev text cid).chunkProcessing = s.chunkProcessing := by
  unfold applyChunkCompletion
  split
  · split
    · split
      · exact ⟨rfl, rfl, rfl, rfl, rfl, rfl⟩
      · exact ⟨rfl, rfl, rfl, rfl, rfl, rfl⟩
    · exact ⟨rfl, rfl, rfl, rfl, rfl, rfl⟩
  · exact ⟨rfl, rfl, rfl, rfl, rfl, rfl⟩

theorem processThenMaybeStart_spec (s : CState) (s' : CState) (out : List Emit)
    (h : processThenMaybeStart s = (s', out)) :
    s'.transcriptBuffer = s.transcriptBuffer
    ∧ s'.lastTranscriptOffset = s.lastTranscriptOffset
    ∧ (∀ x ∈ out, x.isFinal = true →
        s'.chunkQueue = [] ∧ s'.chunkProcessing = false
        ∧ s.finalSummaryRunning = false ∧ s'.finalSummaryRunning = true)
    ∧ out.countP Emit.isFinal ≤ 1 := by
  simp only [processThenMaybeStart] at h
  rw [Prod.mk.injEq] at h
  obtain ⟨rfl, rfl⟩ := h
  obtain ⟨b1, o1, f1, p1, c1, outs1⟩ :=
    processChunkQueue_spec s (processChunkQueue s).1 (processChunkQueue s).2 rfl
  obtain ⟨q2, pr2, b2, o2, outs2⟩ :=
    maybeStart_spec (processChunkQueue s).1
      (maybeStartPendingFinalSummary (processChunkQueue s).1).1
      (maybeStartPendingFinalSummary (processChunkQueue s).1).2 rfl
  refine ⟨by rw [b2, b1], by rw [o2, o1], ?_, ?_⟩
  · intro x hx hfin
    rcases List.mem_append.mp hx with hx1 | hx2
    · rcases outs1 with h1 | ⟨i, tx, sd, h1⟩
      · rw [h1] at hx1
        simp at hx1
      · rw [h1, List.mem_singleton] at hx1
        subst hx1
        simp [Emit.isFinal] at hfin
    · rcases outs2 with h2 | ⟨hq, hproc, hrf, hrt, hpend, t, d, h2⟩
      · rw [h2] at hx2
        simp at hx2
      · refine ⟨by rw [q2, hq], by rw [pr2, hproc], by rw [← f1]; exact hrf, hrt⟩
  · rw [List.countP_append]
    have hc1 : (processChunkQueue s).2.countP Emit.isFinal = 0 := by
      rcases outs1 with h1 | ⟨i, tx, sd, h1⟩ <;> rw [h1] <;>
        simp [List.countP_nil, List.countP_cons, Emit.isFinal]
    have hc2 : (maybeStartPendingFinalSummary (processChunkQueue s).1).2.countP Emit.isFinal ≤ 1 := by
      rcases outs2 with h2 | ⟨_, _, _, _, _, t, d, h2⟩ <;> rw [h2] <;>
        simp [List.countP_nil, List.countP_cons, Emit.isFinal]
    omega

theorem handleChunk_spec (s : CState) (ev : String) (text : Option String) (ctx : ChunkCtx)
    (s' : CState) (out : List Emit)
    (h : handleChunkSummarizerEvent s ev text ctx = (s', out)) :
    s'.transcriptBuffer = s.transcriptBuffer
    ∧ s'.lastTranscriptOffset = s.lastTranscriptOffset
    ∧ (∀ x ∈ out, x.isFinal = true →
        s'.chunkQueue = [] ∧ s'.chunkProcessing = false
        ∧ s.finalSummaryRunning = false ∧ s'.finalSummaryRunning = true)
    ∧ out.countP Emit.isFinal ≤ 1 := by
  simp only [handleChunkSummarizerEvent] at h
  split at h
  · rw [Prod.mk.injEq] at h
    obtain ⟨rfl, rfl⟩ := h
    exact ⟨rfl, rfl, by simp, by simp⟩
  · split at h
    · split at h
      · rw [Prod.mk.injEq] at h
        obtain ⟨rfl, rfl⟩ := h
        exact ⟨rfl, rfl, by simp, by simp⟩
      · split at h
        · rw [Prod.mk.injEq] at h
          obtain ⟨rfl, rfl⟩ := h
          exact ⟨rfl, rfl, by simp, by simp⟩
        · split at h
          · obtain ⟨hb, ho, hmem, hcnt⟩ := processThenMaybeStart_spec _ _ _ h
            obtain ⟨ab, ao, af, ap, aq, apr⟩ :=
              applyChunkCompletion_frames { s with chunkProcessing := false } ev text ctx.id
            refine ⟨by rw [hb, ab], by rw [ho, ao], ?_, hcnt⟩
            intro x hx hfin
            obtain ⟨m1, m2, m3, m4⟩ := hmem x hx hfin
            exact ⟨m1, m2, af.symm.trans m3, m4⟩
          · rw [Prod.mk.injEq] at h
            obtain ⟨rfl, rfl⟩ := h
            exact ⟨rfl, rfl, by simp, by simp⟩
    · rw [Prod.mk.injEq] at h
      obtain ⟨rfl, rfl⟩ := h
      exact ⟨rfl, rfl, by simp, by simp⟩

theorem maybeStart_countP (s : CState) (s' : CState) (out : List Emit)
    (h : maybeStartPendingFinalSummary s = (s', out)) :
    out.countP Emit.isFinal ≤ 1 := by
  obtain ⟨_, _, _, _, houts⟩ := maybeStart_spec s s' out h
  rcases houts with rfl | ⟨_, _, _, _, _, t, d, rfl⟩ <;>
    simp [List.countP_nil, List.countP_cons, Emit.isFinal]

theorem processTranscriptPartialText_spec (s : CState) (t : String) (s' : CState)
    (out : List Emit) (h : processTranscriptPartialText s t = (s', out)) :
    (∀ x ∈ out, x.isFinal = false)
    ∧ s'.finalSummaryRunning = s.finalSummaryRunning := by
  simp only [processTranscriptPartialText] at h
  split at h
  · rw [Prod.mk.injEq] at h
    obtain ⟨rfl, rfl⟩ := h
    exact ⟨by simp, rfl⟩
  · split at h
    · rw [Prod.mk.injEq] at h
      obtain ⟨rfl, rfl⟩ := h
      exact ⟨by simp, rfl⟩
    · split at h
      · rw [Prod.mk.injEq] at h
        obtain ⟨rfl, rfl⟩ := h
        obtain ⟨hb, ho, hf, hp, hc, houts⟩ :=
          queueChunkSummarization_spec { s with transcriptBuffer := t }
            (jsSlice t s.lastTranscriptOffset)
            (queueChunkSummarization { s with transcriptBuffer := t }
              (jsSlice t s.lastTranscriptOffset)).1
            (queueChunkSummarization { s with transcriptBuffer := t }
              (jsSlice t s.lastTranscriptOffset)).2 rfl
        refine ⟨?_, hf⟩
        intro x hx
        rcases houts with h1 | ⟨i, tx, sd, h1⟩
        · rw [h1] at hx
          simp at hx
        · rw [h1, List.mem_singleton] at hx
          subst hx
          rfl
      · rw [Prod.mk.injEq] at h
        obtain ⟨rfl, rfl⟩ := h
        exact ⟨by simp, rfl⟩

theorem nonfinal_out_spec (s s' : CState) (out : List Emit)
    (hall : ∀ x ∈ out, x.isFinal = false) :
    (∀ x ∈ out, x.isFinal = true →
      s'.chunkQueue = [] ∧ s'.chunkProcessing = false
      ∧ s.finalSummaryRunning = false ∧ s'.finalSummaryRunning = true)
    ∧ out.countP Emit.isFinal ≤ 1 := by
  refine ⟨?_, ?_⟩
  · intro x hx hfin
    rw [hall x hx] at hfin
    cases hfin
  · rw [List.countP_eq_zero.mpr]
    · exact Nat.zero_le 1
    · intro a ha
      rw [hall a ha]
      simp

theorem step_final_emission (s : CState) (e : SEv) (s' : CState) (out : List Emit)
    (h : step s e = (s', out)) :
    (∀ x ∈ out, x.isFinal = true →
      s'.chunkQueue = [] ∧ s'.chunkProcessing = false
      ∧ s.finalSummaryRunning = false ∧ s'.finalSummaryRunning = true)
    ∧ out.countP Emit.isFinal ≤ 1 := by
  cases e with
  | partialText t =>
    obtain ⟨hall, _⟩ := processTranscriptPartialText_spec s t s' out h
    exact nonfinal_out_spec s s' out hall
  | chunkEv ev text ctx =>
    obtain ⟨_, _, hmem, hcnt⟩ := handleChunk_spec s ev text ctx s' out h
    exact ⟨hmem, hcnt⟩
  | finalEv ev d =>
    simp only [step] at h
    rw [Prod.mk.injEq] at h
    obtain ⟨rfl, rfl⟩ := h
    exact nonfinal_out_spec s _ _ (by simp)
  | requestFinal t =>
    simp only [step, requestFinalSummary] at h
    split at h
    · rw [Prod.mk.injEq] at h
      obtain ⟨rfl, rfl⟩ := h
      exact nonfinal_out_spec s _ _ (by simp)
    · rename_i dir hdir
      obtain ⟨q2, pr2, _, _, houts⟩ := maybeStart_spec _ s' out h
      have hcnt := maybeStart_countP _ s' out h
      refine ⟨?_, hcnt⟩
      intro x hx hfin
      rcases houts with h2 | ⟨hq, hproc, hrf, hrt, hpend, t', d', h2⟩
      · rw [h2] at hx
        simp at hx
      · exact ⟨q2.trans hq, pr2.trans hproc, hrf, hrt⟩
  | beginSession dir =>
    simp only [step] at h
    rw [Prod.mk.injEq] at h
    obtain ⟨rfl, rfl⟩ := h
    exact nonfinal_out_spec s _ _ (by simp)
  | ensureSummarizer p =>
    simp only [step, startSummarizerIfNeeded] at h
    split at h
    · rw [Prod.mk.injEq] at h
      obtain ⟨rfl, rfl⟩ := h
      exact nonfinal_out_spec s _ _ (by simp)
    · split at h
      · split at h
        · split at h
          · split at h
            · rw [Prod.mk.injEq] at h
              obtain ⟨rfl, rfl⟩ := h
              refine nonfinal_out_spec s _ _ ?_
              intro x hx
              rw [List.mem_singleton] at hx
              subst hx
              rfl
            · rw [Prod.mk.injEq] at h
              obtain ⟨rfl, rfl⟩ := h
              exact nonfinal_out_spec s _ _ (by simp)
          · rw [Prod.mk.injEq] at h
            obtain ⟨rfl, rfl⟩ := h
            exact nonfinal_out_spec s _ _ (by simp)
        · rw [Prod.mk.injEq] at h
          obtain ⟨rfl, rfl⟩ := h
          exact nonfinal_out_spec s _ _ (by simp)
      · rw [Prod.mk.injEq] at h
        obtain ⟨rfl, rfl⟩ := h
        exact nonfinal_out_spec s _ _ (by simp)
  | summarizerExit =>
    simp only [step, onSummarizerExit] at h
    rw [Prod.mk.injEq] at h
    obtain ⟨rfl, rfl⟩ := h
    refine nonfinal_out_spec s _ _ ?_
    intro x hx
    rw [List.mem_map] at hx
    obtain ⟨a, _, rfl⟩ := hx
    rfl
  | followupRegister id =>
    simp only [step, generateFollowupEmail] at h
    split at h
    · rw [Prod.mk.injEq] at h
      obtain ⟨rfl, rfl⟩ := h
      exact nonfinal_out_spec s _ _ (by simp)
    · split at h
      · rw [Prod.mk.injEq] at h
        obtain ⟨rfl, rfl⟩ := h
        exact nonfinal_out_spec s _ _ (by simp)
      · rw [Prod.mk.injEq] at h
        obtain ⟨rfl, rfl⟩ := h
        refine nonfinal_out_spec s _ _ ?_
        intro x hx
        rw [List.mem_singleton] at hx
        subst hx
        rfl
  | followupTimeout id =>
    simp only [step, followupTimeoutFire] at h
    split at h
    · rw [Prod.mk.injEq] at h
      obtain ⟨rfl, rfl⟩ := h
      refine nonfinal_out_spec s _ _ ?_
      intro x hx
      rw [List.mem_singleton] at hx
      subst hx
      rfl
    · rw [Prod.mk.injEq] at h
      obtain ⟨rfl, rfl⟩ := h
      exact nonfinal_out_spec s _ _ (by simp)
  | followupDone id =>
    simp only [step, handleFollowupDone] at h
    split at h
    · rw [Prod.mk.injEq] at h
      obtain ⟨rfl, rfl⟩ := h
      refine nonfinal_out_spec s _ _ ?_
      intro x hx
      rw [List.mem_singleton] at hx
      subst hx
      rfl
    · rw [Prod.mk.injEq] at h
      obtain ⟨rfl, rfl⟩ := h
      exact nonfinal_out_spec s _ _ (by simp)
  | followupError id =>
    simp only [step, handleFollowupError] at h
    split at h
    · rw [Prod.mk.injEq] at h
      obtain ⟨rfl, rfl⟩ := h
      refine nonfinal_out_spec s _ _ ?_
      intro x hx
      rw [List.mem_singleton] at hx
      subst hx
      rfl
    · rw [Prod.mk.injEq] at h
      obtain ⟨rfl, rfl⟩ := h
      exact nonfinal_out_spec s _ _ (by simp)

/-! ### Claim C2 -/

/-- Claim C2: the final summarization request is never dispatched while the
chunk queue is non-empty or a chunk task is processing: whenever a step of
the coordinator emits a final summarize command, the chunk queue is empty
and no chunk is processing at the dispatch point (`startFinalSummary` does
not touch either field, so the post-state equals the dispatch-point state on
them). -/
theorem drain_before_final (s : CState) (e : SEv) (x : Emit)
    (hx : x ∈ (step s e).2) (hfin : x.isFinal = true) :
    (step s e).1.chunkQueue = [] ∧ (step s e).1.chunkProcessing = false := by
  have h := step_final_emission s e (step s e).1 (step s e).2 rfl
  obtain ⟨h1, h2, _, _⟩ := h.1 x hx hfin
  exact ⟨h1, h2⟩

theorem drain_before_final_witness :
    Emit.finalSummarize "Remaining transcript:\nt" "S"
        ∈ (step { baseState with summarizerAlive := true, currentSessionDir := some "S" }
            (SEv.requestFinal "t")).2
    ∧ (step { baseState with summarizerAlive := true, currentSessionDir := some "S" }
        (SEv.requestFinal "t")).1.chunkQueue = []
    ∧ (step { baseState with summarizerAlive := true, currentSessionDir := some "S" }
        (SEv.requestFinal "t")).1.chunkProcessing = false := by
  have hm : Emit.finalSummarize "Remaining transcript:\nt" "S"
      ∈ (step { baseState with summarizerAlive := true, currentSessionDir := some "S" }
          (SEv.requestFinal "t")).2 := by decide
  have hc := drain_before_final _ _ _ hm rfl
  exact ⟨hm, hc.1, hc.2⟩

/-! ### Claim C4 -/

/-- Claim C4 counterexample: with a final summary already running (summarizer
alive, queue drained), a second stop request is not queued for later
dispatch: it emits nothing, and after the running final resolves the pending
slot is already empty and nothing was ever dispatched for it — the request
was dropped, not dispatched exactly once. -/
theorem second_stop_dropped_cex :
    emitsTrace
        { baseState with
            finalSummaryRunning := true
            summarizerAlive := true
            currentSessionDir := some "S"
            pendingFinalSummarySession := some "S" }
        [SEv.requestFinal "t2", SEv.finalEv "done" (some "S")] = []
    ∧ (runTrace
        { baseState with
            finalSummaryRunning := true
            summarizerAlive := true
            currentSessionDir := some "S"
            pendingFinalSummarySession := some "S" }
        [SEv.requestFinal "t2", SEv.finalEv "done" (some "S")]).finalSummaryPending = none
    ∧ (runTrace
        { baseState with
            finalSummaryRunning := true
            summarizerAlive := true
            currentSessionDir := some "S"
            pendingFinalSummarySession := some "S" }
        [SEv.requestFinal "t2", SEv.finalEv "done" (some "S")]).finalSummaryRunning = false := by
  decide

/-- Claim C4 (amended): at most one final summarization request is in flight
at a time — a step dispatches at most one final command, and only from a
state whose running flag is clear, setting it — but a second stop request
arriving while a final request is already running (queue drained, nothing
processing) is dropped, not queued: `maybeStartPendingFinalSummary` clears
the pending slot and `startFinalSummary` returns on its running guard, so
the state keeps no pending text and nothing is dispatched. -/
theorem final_inflight_amended :
    (∀ (s : CState) (e : SEv) (x : Emit), x ∈ (step s e).2 → x.isFinal = true →
        s.finalSummaryRunning = false ∧ (step s e).1.finalSummaryRunning = true)
    ∧ (∀ (s : CState) (e : SEv), (step s e).2.countP Emit.isFinal ≤ 1)
    ∧ (∀ (s : CState) (t dir : String),
        s.finalSummaryRunning = true → s.chunkProcessing = false → s.chunkQueue = [] →
        s.currentSessionDir = some dir →
        requestFinalSummary s t
          = ({ s with
                finalSummaryPending := none
                chunkSummariesEnabled := false
                pendingFinalSummarySession := some dir }, [])) := by
  refine ⟨?_, ?_, ?_⟩
  · intro s e x hx hfin
    have h := step_final_emission s e (step s e).1 (step s e).2 rfl
    obtain ⟨_, _, h3, h4⟩ := h.1 x hx hfin
    exact ⟨h3, h4⟩
  · intro s e
    exact (step_final_emission s e (step s e).1 (step s e).2 rfl).2
  · intro s t dir hrun hproc hq hdir
    simp only [requestFinalSummary, hdir, maybeStartPendingFinalSummary, hproc, hq,
      startFinalSummary, hrun]
    simp

theorem final_inflight_amended_witness :
    Emit.finalSummarize "Remaining transcript:\nw" "W"
        ∈ (step { baseState with summarizerAlive := true, currentSessionDir := some "W" }
            (SEv.requestFinal "w")).2
    ∧ ({ baseState with
          summarizerAlive := true
          currentSessionDir := some "W" } : CState).finalSummaryRunning = false
    ∧ (step { baseState with summarizerAlive := true, currentSessionDir := some "W" }
        (SEv.requestFinal "w")).1.finalSummaryRunning = true
    ∧ ({ baseState with
          finalSummaryRunning := true
          summarizerAlive := true
          currentSessionDir := some "W2" } : CState).finalSummaryRunning = true
    ∧ requestFinalSummary
        { baseState with
          finalSummaryRunning := true
          summarizerAlive := true
          currentSessionDir := some "W2" } "tt"
      = ({ baseState with
            finalSummaryRunning := true
            summarizerAlive := true
            currentSessionDir := some "W2"
            finalSummaryPending := none
            chunkSummariesEnabled := false
            pendingFinalSummarySession := some "W2" }, []) := by
  have hm : Emit.finalSummarize "Remaining transcript:\nw" "W"
      ∈ (step { baseState with summarizerAlive := true, currentSessionDir := some "W" }
          (SEv.requestFinal "w")).2 := by decide
  have h1 := final_inflight_amended.1 _ _ _ hm rfl
  have h3 := final_inflight_amended.2.2
      { baseState with
        finalSummaryRunning := true
        summarizerAlive := true
        currentSessionDir := some "W2" } "tt" "W2" rfl rfl rfl rfl
  exact ⟨hm, h1.1, h1.2, rfl, h3⟩

/-! ### Claim C3: cursor and buffer invariants -/

/-- `beginSession` models `backend-start`, which ends the previous session's
buffer lifetime. -/
def SEv.isBegin : SEv → Bool
  | .beginSession _ => true
  | _ => false

/-- An event is applied under the conditions the spec assumes of the
environment: partial-transcript events report *cumulative* text, so the new
full text is at least as long as the current buffer. -/
def evOk (s : CState) : SEv → Prop
  | .partialText t => jsLen s.transcriptBuffer ≤ jsLen t
  | _ => True

/-- Every event of the trace is applied under `evOk` at its step. -/
def TraceOk (s : CState) : List SEv → Prop
  | [] => True
  | e :: es => evOk s e ∧ TraceOk (step s e).1 es

theorem step_cursor_of_frames (s : CState) (e : SEv)
    (h1 : (step s e).1.lastTranscriptOffset = s.lastTranscriptOffset)
    (h2 : (step s e).1.transcriptBuffer = s.transcriptBuffer)
    (hinv : s.lastTranscriptOffset ≤ jsLen s.transcriptBuffer) :
    (step s e).1.lastTranscriptOffset ≤ jsLen (step s e).1.transcriptBuffer
    ∧ (e.isBegin = false →
        s.lastTranscriptOffset ≤ (step s e).1.lastTranscriptOffset
        ∧ jsLen s.transcriptBuffer ≤ jsLen (step s e).1.transcriptBuffer) := by
  constructor
  · rw [h1, h2]
    exact hinv
  · intro _
    rw [h1, h2]
    exact ⟨le_refl _, le_refl _⟩

theorem step_cursor (s : CState) (e : SEv)
    (hinv : s.lastTranscriptOffset ≤ jsLen s.transcriptBuffer)
    (hok : evOk s e) :
    (step s e).1.lastTranscriptOffset ≤ jsLen (step s e).1.transcriptBuffer
    ∧ (e.isBegin = false →
        s.lastTranscriptOffset ≤ (step s e).1.lastTranscriptOffset
        ∧ jsLen s.transcriptBuffer ≤ jsLen (step s e).1.transcriptBuffer) := by
  cases e with
  | partialText t =>
    have hok' : jsLen s.transcriptBuffer ≤ jsLen t := hok
    simp only [step, processTranscriptPartialText]
    split
    · exact ⟨hinv, fun _ => ⟨le_refl _, le_refl _⟩⟩
    · split
      · exact ⟨hinv.trans hok', fun _ => ⟨le_refl _, hok'⟩⟩
      · split
        · obtain ⟨hb, ho, _, _, _, _⟩ :=
            queueChunkSummarization_spec { s with transcriptBuffer := t }
              (jsSlice t s.lastTranscriptOffset)
              (queueChunkSummarization { s with transcriptBuffer := t }
                (jsSlice t s.lastTranscriptOffset)).1
              (queueChunkSummarization { s with transcriptBuffer := t }
                (jsSlice t s.lastTranscriptOffset)).2 rfl
          constructor
          · exact le_refl _
          · intro _
            constructor
            · rw [hb]
              exact hinv.trans hok'
            · rw [hb]
              exact hok'
        · exact ⟨hinv.trans hok', fun _ => ⟨le_refl _, hok'⟩⟩
  | chunkEv ev text ctx =>
    obtain ⟨hb, ho, _, _⟩ :=
      handleChunk_spec s ev text ctx
        (step s (SEv.chunkEv ev text ctx)).1 (step s (SEv.chunkEv ev text ctx)).2 rfl
    exact step_cursor_of_frames s _ ho hb hinv
  | finalEv ev d =>
    have hfr : (step s (SEv.finalEv ev d)).1.lastTranscriptOffset = s.lastTranscriptOffset
        ∧ (step s (SEv.finalEv ev d)).1.transcriptBuffer = s.transcriptBuffer := by
      simp only [step, handleFinalSummarizerEvent]
      split
      · exact ⟨rfl, rfl⟩
      · split
        · split
          · exact ⟨rfl, rfl⟩
          · exact ⟨rfl, rfl⟩
        · exact ⟨rfl, rfl⟩
    exact step_cursor_of_frames s _ hfr.1 hfr.2 hinv
  | requestFinal t =>
    have hfr : (step s (SEv.requestFinal t)).1.lastTranscriptOffset = s.lastTranscriptOffset
        ∧ (step s (SEv.requestFinal t)).1.transcriptBuffer = s.transcriptBuffer := by
      simp only [step, requestFinalSummary]
      split
      · exact ⟨rfl, rfl⟩
      · rename_i dir hdir
        obtain ⟨_, _, b2, o2, _⟩ :=
          maybeStart_spec
            { s with
              finalSummaryPending := some t
              chunkSummariesEnabled := false
              pendingFinalSummarySession := some dir }
            (maybeStartPendingFinalSummary
              { s with
                finalSummaryPending := some t
                chunkSummariesEnabled := false
                pendingFinalSummarySession := some dir }).1
            (maybeStartPendingFinalSummary
              { s with
                finalSummaryPending := some t
                chunkSummariesEnabled := false
                pendingFinalSummarySession := some dir }).2 rfl
        exact ⟨o2, b2⟩
    exact step_cursor_of_frames s _ hfr.1 hfr.2 hinv
  | beginSession dir =>
    constructor
    · exact Nat.zero_le _
    · intro hfalse
      exact Bool.noConfusion hfalse
  | ensureSummarizer p =>
    have hfr : (step s (SEv.ensureSummarizer p)).1.lastTranscriptOffset = s.lastTranscriptOffset
        ∧ (step s (SEv.ensureSummarizer p)).1.transcriptBuffer = s.transcriptBuffer := by
      simp only [step, startSummarizerIfNeeded]
      split
      · exact ⟨rfl, rfl⟩
      · split
        · split
          · split
            · split
              · exact ⟨rfl, rfl⟩
              · exact ⟨rfl, rfl⟩
            · exact ⟨rfl, rfl⟩
          · exact ⟨rfl, rfl⟩
        · exact ⟨rfl, rfl⟩
    exact step_cursor_of_frames s _ hfr.1 hfr.2 hinv
  | summarizerExit =>
    exact step_cursor_of_frames s _ rfl rfl hinv
  | followupRegister id =>
    have hfr : (step s (SEv.followupRegister id)).1.lastTranscriptOffset = s.lastTranscriptOffset
        ∧ (step s (SEv.followupRegister id)).1.transcriptBuffer = s.transcriptBuffer := by
      simp only [step, generateFollowupEmail]
      split
      · exact ⟨rfl, rfl⟩
      · split
        · exact ⟨rfl, rfl⟩
        · exact ⟨rfl, rfl⟩
    exact step_cursor_of_frames s _ hfr.1 hfr.2 hinv
  | followupTimeout id =>
    have hfr : (step s (SEv.followupTimeout id)).1.lastTranscriptOffset = s.lastTranscriptOffset
        ∧ (step s (SEv.followupTimeout id)).1.transcriptBuffer = s.transcriptBuffer := by
      simp only [step, followupTimeoutFire]
      split
      · exact ⟨rfl, rfl⟩
      · exact ⟨rfl, rfl⟩
    exact step_cursor_of_frames s _ hfr.1 hfr.2 hinv
  | followupDone id =>
    have hfr : (step s (SEv.followupDone id)).1.lastTranscriptOffset = s.lastTranscriptOffset
        ∧ (step s (SEv.followupDone id)).1.transcriptBuffer = s.transcriptBuffer := by
      simp only [step, handleFollowupDone]
      split
      · exact ⟨rfl, rfl⟩
      · exact ⟨rfl, rfl⟩
    exact step_cursor_of_frames s _ hfr.1 hfr.2 hinv
  | followupError id =>
    have hfr : (step s (SEv.followupError id)).1.lastTranscriptOffset = s.lastTranscriptOffset
        ∧ (step s (SEv.followupError id)).1.transcriptBuffer = s.transcriptBuffer := by
      simp only [step, handleFollowupError]
      split
      · exact ⟨rfl, rfl⟩
      · exact ⟨rfl, rfl⟩
    exact step_cursor_of_frames s _ hfr.1 hfr.2 hinv

/-- Claim C3: over any trace of events within one session (no new-session
reset) whose partial-transcript updates are cumulative, the transcript
cursor never exceeds the buffer length, the buffer length grows
monotonically, and the cursor never decreases. -/
theorem cursor_monotone_invariant (s : CState) (es : List SEv)
    (hinv : s.lastTranscriptOffset ≤ jsLen s.transcriptBuffer)
    (hok : TraceOk s es) :
    (runTrace s es).lastTranscriptOffset ≤ jsLen (runTrace s es).transcriptBuffer
    ∧ ((es.all fun e => ! e.isBegin) = true →
        s.lastTranscriptOffset ≤ (runTrace s es).lastTranscriptOffset
        ∧ jsLen s.transcriptBuffer ≤ jsLen (runTrace s es).transcriptBuffer) := by
  induction es generalizing s with
  | nil =>
    exact ⟨hinv, fun _ => ⟨le_refl _, le_refl _⟩⟩
  | cons e es ih =>
    obtain ⟨hok1, hok2⟩ := hok
    have hstep := step_cursor s e hinv hok1
    have hrec := ih (step s e).1 hstep.1 hok2
    refine ⟨hrec.1, ?_⟩
    intro hall
    rw [List.all_cons, Bool.and_eq_true] at hall
    obtain ⟨hbe, hres⟩ := hall
    have hbe' : e.isBegin = false := by
      cases hb : e.isBegin
      · rfl
      · rw [hb] at hbe
        exact Bool.noConfusion hbe
    obtain ⟨hm1, hm2⟩ := hstep.2 hbe'
    obtain ⟨hn1, hn2⟩ := hrec.2 hres
    exact ⟨hm1.trans hn1, hm2.trans hn2⟩

theorem cursor_monotone_invariant_witness :
    ({ baseState with chunkSummariesEnabled := true } : CState).lastTranscriptOffset
        ≤ jsLen ({ baseState with chunkSummariesEnabled := true } : CState).transcriptBuffer
    ∧ TraceOk { baseState with chunkSummariesEnabled := true } [SEv.partialText "hello"]
    ∧ (runTrace { baseState with chunkSummariesEnabled := true }
        [SEv.partialText "hello"]).lastTranscriptOffset
        ≤ jsLen (runTrace { baseState with chunkSummariesEnabled := true }
            [SEv.partialText "hello"]).transcriptBuffer := by
  have h1 : ({ baseState with chunkSummariesEnabled := true } : CState).lastTranscriptOffset
      ≤ jsLen ({ baseState with chunkSummariesEnabled := true } : CState).transcriptBuffer := by
    decide
  have h2 : TraceOk { baseState with chunkSummariesEnabled := true }
      [SEv.partialText "hello"] :=
    ⟨(by decide : jsLen ({ baseState with
        chunkSummariesEnabled := true } : CState).transcriptBuffer ≤ jsLen "hello"),
     trivial⟩
  exact ⟨h1, h2, (cursor_monotone_invariant _ _ h1 h2).1⟩

/-! ### Claim C5: session isolation -/

/-- Claim C5: a chunk completion event tagged with a session that is not the
chunk-batching subsystem's current session (including an absent tag) is
silently discarded — the state is unchanged and nothing is emitted — and a
new session's begin resets the chunk summary map, queue, counters and flags
wholesale. -/
theorem stale_chunk_event_discarded :
    (∀ (s : CState) (ev : String) (text : Option String) (ctx : ChunkCtx),
        ctx.sessionDir = none ∨ ctx.sessionDir ≠ s.chunkSummariesSession →
        handleChunkSummarizerEvent s ev text ctx = (s, []))
    ∧ (∀ s : CState,
        (resetChunkSummariesState s).chunkQueue = []
        ∧ (resetChunkSummariesState s).chunkProcessing = false
        ∧ (resetChunkSummariesState s).nextChunkId = 0
        ∧ (resetChunkSummariesState s).chunkSummaries = []
        ∧ (resetChunkSummariesState s).lastTranscriptOffset = 0
        ∧ (resetChunkSummariesState s).transcriptBuffer = ""
        ∧ (resetChunkSummariesState s).chunkSummariesEnabled = true
        ∧ (resetChunkSummariesState s).chunkSummariesSession = none
        ∧ (resetChunkSummariesState s).finalSummaryPending = none
        ∧ (resetChunkSummariesState s).finalSummaryRunning = false
        ∧ (resetChunkSummariesState s).pendingFinalSummarySession = none) := by
  constructor
  · intro s ev text ctx hstale
    simp only [handleChunkSummarizerEvent]
    split
    · rfl
    · split
      · rename_i d cur h1 h2
        have hne : d ≠ cur := by
          intro hdc
          subst hdc
          rcases hstale with h | h
          · rw [h1] at h
            exact Option.noConfusion h
          · rw [h1, h2] at h
            exact h rfl
        rw [if_pos hne]
      · rfl
  · intro s
    exact ⟨rfl, rfl, rfl, rfl, rfl, rfl, rfl, rfl, rfl, rfl, rfl⟩

theorem stale_chunk_event_discarded_witness :
    ((⟨"chunk", some 0, some "A"⟩ : ChunkCtx).sessionDir = none
      ∨ (⟨"chunk", some 0, some "A"⟩ : ChunkCtx).sessionDir
          ≠ ({ baseState with chunkSummariesSession := some "B" } : CState).chunkSummariesSession)
    ∧ handleChunkSummarizerEvent { baseState with chunkSummariesSession := some "B" }
        "done" (some "stale summary") ⟨"chunk", some 0, some "A"⟩
      = ({ baseState with chunkSummariesSession := some "B" }, []) := by
  have hstale : (⟨"chunk", some 0, some "A"⟩ : ChunkCtx).sessionDir = none
      ∨ (⟨"chunk", some 0, some "A"⟩ : ChunkCtx).sessionDir
          ≠ ({ baseState with chunkSummariesSession := some "B" } : CState).chunkSummariesSession :=
    Or.inr (by decide)
  exact ⟨hstale,
    stale_chunk_event_discarded.1 { baseState with chunkSummariesSession := some "B" }
      "done" (some "stale summary") ⟨"chunk", some 0, some "A"⟩ hstale⟩

/-! ### Claim C6: worker exit cleanup -/

/-- Claim C6 (against the code): on summarizer exit every follow-up request
is resolved with a failure and removed, and the process handle is dropped —
but the in-flight final-summary running flag is NOT cleared by the exit
handler: it keeps its previous value, as the concrete run with the flag set
shows. -/
theorem summarizer_exit_cleanup :
    (∀ s : CState,
        (onSummarizerExit s).1.followUps = []
        ∧ (onSummarizerExit s).1.summarizerAlive = false
        ∧ (onSummarizerExit s).2 = s.followUps.map (fun id => Emit.followupResolved id false)
        ∧ (onSummarizerExit s).1.finalSummaryRunning = s.finalSummaryRunning)
    ∧ (onSummarizerExit { baseState with
        finalSummaryRunning := true
        summarizerAlive := true
        followUps := ["r1"] }).1.finalSummaryRunning = true :=
  ⟨fun _ => ⟨rfl, rfl, rfl, rfl⟩, rfl⟩

/-! ### Claim C7: follow-up timeout resolution -/

/-- Claim C7: a registered follow-up request whose timeout fires resolves
exactly once with a failure result and its id is removed from the
correlation table; a `followup_done` or `followup_error` event for that same
id arriving afterwards is a no-op (state unchanged, nothing resolved). -/
theorem followup_timeout_once (s : CState) (id : String)
    (hmem : id ∈ s.followUps) (hnd : s.followUps.Nodup) :
    (followupTimeoutFire s id).2 = [Emit.followupResolved id false]
    ∧ id ∉ (followupTimeoutFire s id).1.followUps
    ∧ handleFollowupDone (followupTimeoutFire s id).1 id
        = ((followupTimeoutFire s id).1, [])
    ∧ handleFollowupError (followupTimeoutFire s id).1 id
        = ((followupTimeoutFire s id).1, []) := by
  have hcont : s.followUps.contains id = true := List.elem_iff.mpr hmem
  have heq : followupTimeoutFire s id
      = ({ s with followUps := s.followUps.erase id }, [Emit.followupResolved id false]) := by
    simp only [followupTimeoutFire, hcont]
    rfl
  have hnotmem : id ∉ s.followUps.erase id := hnd.not_mem_erase
  have hcont2 : (s.followUps.erase id).contains id = false := by
    cases hc : (s.followUps.erase id).contains id
    · rfl
    · exact absurd (List.elem_iff.mp hc) hnotmem
  refine ⟨by rw [heq], by rw [heq]; exact hnotmem, ?_, ?_⟩
  · rw [heq]
    simp only [handleFollowupDone, hcont2]
    rfl
  · rw [heq]
    simp only [handleFollowupError, hcont2]
    rfl

theorem followup_timeout_once_witness :
    "a" ∈ ({ baseState with followUps := ["a", "b"] } : CState).followUps
    ∧ ({ baseState with followUps := ["a", "b"] } : CState).followUps.Nodup
    ∧ (followupTimeoutFire { baseState with followUps := ["a", "b"] } "a").2
        = [Emit.followupResolved "a" false]
    ∧ handleFollowupDone (followupTimeoutFire { baseState with followUps := ["a", "b"] } "a").1 "a"
        = ((followupTimeoutFire { baseState with followUps := ["a", "b"] } "a").1, []) := by
  have hmem : "a" ∈ ({ baseState with followUps := ["a", "b"] } : CState).followUps := by decide
  have hnd : ({ baseState with followUps := ["a", "b"] } : CState).followUps.Nodup := by decide
  have h := followup_timeout_once { baseState with followUps := ["a", "b"] } "a" hmem hnd
  exact ⟨hmem, hnd, h.1, h.2.2.1⟩

/-! ### Claim C8: idempotent worker reuse -/

/-- Claim C8: ensuring the summarizer is running is idempotent: from a dead
worker, two calls with the same model path spawn exactly one process (the
second call is a no-op), and a call on a live worker with a different model
path sends exactly one load_model command without spawning. -/
theorem ensure_summarizer_idempotent :
    (∀ (s : CState) (p : String), s.summarizerAlive = false →
        (startSummarizerIfNeeded s (some p)).1.spawnCount = s.spawnCount + 1
        ∧ (startSummarizerIfNeeded s (some p)).2 = []
        ∧ startSummarizerIfNeeded (startSummarizerIfNeeded s (some p)).1 (some p)
            = ((startSummarizerIfNeeded s (some p)).1, []))
    ∧ (∀ (s : CState) (p cur : String), s.summarizerAlive = true →
        s.currentSummaryModelPath = some cur → cur ≠ p → s.sendWorks = true →
        startSummarizerIfNeeded s (some p)
          = ({ s with currentSummaryModelPath := some p }, [Emit.loadModel p])
        ∧ (startSummarizerIfNeeded s (some p)).1.spawnCount = s.spawnCount) := by
  constructor
  · intro s p hdead
    have h1 : startSummarizerIfNeeded s (some p)
        = ({ s with
              summarizerAlive := true
              currentSummaryModelPath := some p
              spawnCount := s.spawnCount + 1 }, []) := by
      simp only [startSummarizerIfNeeded, hdead]
      simp
    refine ⟨by rw [h1], by rw [h1], ?_⟩
    rw [h1]
    simp only [startSummarizerIfNeeded]
    simp
  · intro s p cur halive hpath hne hsw
    have h1 : startSummarizerIfNeeded s (some p)
        = ({ s with currentSummaryModelPath := some p }, [Emit.loadModel p]) := by
      simp only [startSummarizerIfNeeded, halive, hpath, sendOk]
      simp [hne, hsw, halive]
    exact ⟨h1, by rw [h1]⟩

theorem ensure_summarizer_idempotent_witness :
    (baseState.summarizerAlive = false
      ∧ (startSummarizerIfNeeded baseState (some "m1")).1.spawnCount = baseState.spawnCount + 1
      ∧ startSummarizerIfNeeded (startSummarizerIfNeeded baseState (some "m1")).1 (some "m1")
          = ((startSummarizerIfNeeded baseState (some "m1")).1, []))
    ∧ (({ baseState with
          summarizerAlive := true
          currentSummaryModelPath := some "m1" } : CState).summarizerAlive = true
      ∧ startSummarizerIfNeeded
          { baseState with summarizerAlive := true, currentSummaryModelPath := some "m1" }
          (some "m2")
        = ({ baseState with summarizerAlive := true, currentSummaryModelPath := some "m2" },
           [Emit.loadModel "m2"])) := by
  have ha := ensure_summarizer_idempotent.1 baseState "m1" rfl
  have hb := ensure_summarizer_idempotent.2
      { baseState with summarizerAlive := true, currentSummaryModelPath := some "m1" }
      "m2" "m1" rfl rfl (by decide) rfl
  exact ⟨⟨rfl, ha.1, ha.2.2⟩, ⟨rfl, hb.1⟩⟩

/-! ### Claim C9: threshold crossing with a dead summarizer -/

/-- Claim C9: when a cumulative partial update's unconsumed slice meets the
word threshold while chunking is enabled but the summarizer process is not
alive, the cursor is still advanced to the end of the buffer while no chunk
task is enqueued and nothing is emitted — the whole state change is exactly
the buffer replacement plus the cursor jump — so the slice is excluded both
from the chunk summaries and from the final request's leftover computation
(the leftover at the advanced cursor is empty). -/
theorem threshold_drop_when_dead (s : CState) (t : String)
    (hen : s.chunkSummariesEnabled = true) (hdead : s.summarizerAlive = false)
    (hne : jsTrim (jsSlice t s.lastTranscriptOffset) ≠ "")
    (hth : CHUNK_WORD_THRESHOLD ≤ countWords (jsSlice t s.lastTranscriptOffset)) :
    processTranscriptPartialText s t
      = ({ s with transcriptBuffer := t, lastTranscriptOffset := jsLen t }, [])
    ∧ jsTrim (jsSlice t (min (jsLen t) (jsLen t))) = "" := by
  constructor
  · simp only [processTranscriptPartialText, queueChunkSummarization, hen, hdead]
    simp [hne, hth]
  · rw [Nat.min_self]
    show jsTrim ⟨t.data.drop t.data.length⟩ = ""
    rw [List.drop_length]
    rfl

set_option maxRecDepth 40000 in
theorem threshold_drop_when_dead_witness :
    ({ baseState with chunkSummariesEnabled := true } : CState).chunkSummariesEnabled = true
    ∧ ({ baseState with chunkSummariesEnabled := true } : CState).summarizerAlive = false
    ∧ jsTrim (jsSlice (String.join (List.replicate 600 "w "))
        ({ baseState with chunkSummariesEnabled := true } : CState).lastTranscriptOffset) ≠ ""
    ∧ CHUNK_WORD_THRESHOLD ≤ countWords (jsSlice (String.join (List.replicate 600 "w "))
        ({ baseState with chunkSummariesEnabled := true } : CState).lastTranscriptOffset)
    ∧ processTranscriptPartialText { baseState with chunkSummariesEnabled := true }
        (String.join (List.replicate 600 "w "))
      = ({ baseState with
            chunkSummariesEnabled := true
            transcriptBuffer := String.join (List.replicate 600 "w ")
            lastTranscriptOffset := jsLen (String.join (List.replicate 600 "w ")) }, []) := by
  have h3 : jsTrim (jsSlice (String.join (List.replicate 600 "w "))
      ({ baseState with chunkSummariesEnabled := true } : CState).lastTranscriptOffset) ≠ "" := by
    decide
  have h4 : CHUNK_WORD_THRESHOLD ≤ countWords (jsSlice (String.join (List.replicate 600 "w "))
      ({ baseState with chunkSummariesEnabled := true } : CState).lastTranscriptOffset) := by
    decide
  have h5 := (threshold_drop_when_dead { baseState with chunkSummariesEnabled := true }
      (String.join (List.replicate 600 "w ")) rfl rfl h3 h4).1
  exact ⟨rfl, rfl, h3, h4, h5⟩

/-! ### Claim C10: session-audio deletion path guard

`path.resolve` is modelled by an abstract resolver function `res`; `root`
is the already-resolved sessions root and `sep` the path separator, so the
string-level checks below are exactly those of main.ts. -/

/-- `resolveSessionDir` (main.ts lines 112-119): reject an empty input, the
root itself, and any resolved path that does not start with `root + sep`. -/
def resolveSessionDir (res : String → String) (root sep : String)
    (sessionDir : String) : Option String :=
  if sessionDir = "" then none
  else
    if res sessionDir = root then none
    else if !(jsStartsWith (res sessionDir) (root ++ sep)) then none
    else some (res sessionDir)

/-- The decision part of the `delete-session-audio` handler (main.ts lines
1174-1179): `some dir` means deletion proceeds on the files under `dir`;
`none` means the request is rejected with a failure result. -/
def deleteSessionAudio (res : String → String) (root sep : String) (backendAlive : Bool)
    (currentDir : Option String) (sessionDir : String) : Option String :=
  match resolveSessionDir res root sep sessionDir with
  | none => none
  | some resolved =>
    match backendAlive, currentDir with
    | true, some cur => if res cur = resolved then none else some resolved
    | _, _ => some resolved

/-- Claim C10: no file is deleted unless the resolved path lies strictly
inside the sessions root — it is the resolved input, starts with
`root + sep` and differs from the root — and deletion never proceeds while
a recording is in progress for that same resolved directory. -/
theorem delete_audio_path_guard (res : String → String) (root sep : String)
    (alive : Bool) (cur : Option String) (p : String) (d : String)
    (h : deleteSessionAudio res root sep alive cur p = some d) :
    d = res p ∧ jsStartsWith d (root ++ sep) = true ∧ d ≠ root
    ∧ (∀ c, alive = true → cur = some c → res c ≠ d) := by
  simp only [deleteSessionAudio] at h
  split at h
  · exact Option.noConfusion h
  · rename_i resolved hres
    have hfacts : resolved = res p ∧ jsStartsWith resolved (root ++ sep) = true
        ∧ resolved ≠ root := by
      simp only [resolveSessionDir] at hres
      split at hres
      · exact Option.noConfusion hres
      · split at hres
        · exact Option.noConfusion hres
        · split at hres
          · exact Option.noConfusion hres
          · rename_i hnroot hnpre
            rw [Option.some.injEq] at hres
            subst hres
            refine ⟨rfl, ?_, hnroot⟩
            cases hsw : jsStartsWith (res p) (root ++ sep)
            · rw [hsw] at hnpre
              exact absurd rfl hnpre
            · rfl
    split at h
    · rename_i c
      split at h
      · exact Option.noConfusion h
      · rename_i hneq
        rw [Option.some.injEq] at h
        subst h
        refine ⟨hfacts.1, hfacts.2.1, hfacts.2.2, ?_⟩
        intro c' hal' hc'
        rw [Option.some.injEq] at hc'
        subst hc'
        exact hneq
    · rename_i hcatch
      rw [Option.some.injEq] at h
      subst h
      refine ⟨hfacts.1, hfacts.2.1, hfacts.2.2, ?_⟩
      intro c' hal' hc'
      exact (hcatch c' hal' hc').elim

theorem delete_audio_path_guard_witness :
    deleteSessionAudio (fun q => q) "/r" "/" false none "/r/s1" = some "/r/s1"
    ∧ "/r/s1" = (fun q : String => q) "/r/s1"
    ∧ jsStartsWith "/r/s1" ("/r" ++ "/") = true
    ∧ "/r/s1" ≠ "/r" := by
  have hdel : deleteSessionAudio (fun q => q) "/r" "/" false none "/r/s1" = some "/r/s1" := by
    decide
  have h := delete_audio_path_guard (fun q => q) "/r" "/" false none "/r/s1" "/r/s1" hdel
  exact ⟨hdel, h.1, h.2.1, h.2.2.1⟩

end MeetingNotes
